import Mathlib

set_option maxRecDepth 8000

/-!
Verification development for the quantum_trading_system repository.

The backtest accounting engine (`run_simple_backtest` in
src/src/backtest/backtester.py) is embedded over ℚ: prices, fees and
slippage are exact rationals, and the daily rebalancing loop becomes a
fold over a list of day records.  The metrics functions
(`calculate_metrics` in src/src/backtest/backtester.py,
`calculate_sharpe_ratio` and `calculate_max_drawdown` in
src/backtester.py) are embedded over ℚ, with the square roots of the
Sharpe formula taken in ℝ.  The asset-selection solver is delegated by
the source to an external library, so the solver contract is modelled
from the specification text; the quadratic program that the source
builds before calling the external solver is embedded directly.
-/

/-- Portfolio state of `run_simple_backtest`: cash, per-asset position
quantities, running cost totals, trade counter, and the equity values
recorded so far. -/
structure SimState where
  cash : ℚ
  positions : String → ℚ
  totalFees : ℚ
  totalSlippage : ℚ
  tradeCount : ℕ
  history : List ℚ

/-- One row of the backtest input: the day's prices (price_df.loc[date])
and the day's target asset list (daily_choices[date]). -/
structure DayData where
  priceAt : String → ℚ
  target : List String

/-- Sell branch of the rebalancing loop: liquidate one held asset at the
slippage-adjusted price, pay the fee on the proceeds. -/
def sellAsset (fee slip : ℚ) (price : ℚ) (s : SimState) (a : String) : SimState :=
  let sellPrice := price * (1 - slip)
  let slipCost := s.positions a * (price - sellPrice)
  let proceeds := s.positions a * sellPrice
  let f := proceeds * fee
  { cash := s.cash + proceeds - f
    positions := fun x => if x = a then 0 else s.positions x
    totalFees := s.totalFees + f
    totalSlippage := s.totalSlippage + slipCost
    tradeCount := s.tradeCount + 1
    history := s.history }

/-- buy_price = price * (1 + SLIPPAGE_PCT). -/
def buyPrice (slip price : ℚ) : ℚ := price * (1 + slip)

/-- fee = cash_per_asset * TRANSACTION_FEE_PCT. -/
def buyFee (cpa fee : ℚ) : ℚ := cpa * fee

/-- quantity_to_buy = (cash_per_asset - fee) / buy_price. -/
def buyQty (cpa fee bp : ℚ) : ℚ := (cpa - buyFee cpa fee) / bp

/-- Buy branch of the rebalancing loop: spend the per-asset cash slice on
one new asset at the slippage-adjusted price. -/
def buyAsset (fee slip price cpa : ℚ) (s : SimState) (a : String) : SimState :=
  let bp := buyPrice slip price
  let slipCost := cpa / bp * (bp - price)
  let f := buyFee cpa fee
  let qty := buyQty cpa fee bp
  { cash := s.cash - cpa
    positions := fun x => if x = a then qty else s.positions x
    totalFees := s.totalFees + f
    totalSlippage := s.totalSlippage + slipCost
    tradeCount := s.tradeCount + 1
    history := s.history }

/-- current_portfolio_value = cash + sum of quantity * price over the
price table columns. -/
def portfolioValue (assets : List String) (priceAt : String → ℚ) (s : SimState) : ℚ :=
  s.cash + (assets.map (fun a => s.positions a * priceAt a)).sum

/-- Value step: append today's equity point before any trade. -/
def valuePhase (assets : List String) (day : DayData) (s : SimState) : SimState :=
  { s with history := s.history ++ [portfolioValue assets day.priceAt s] }

/-- current_assets = assets with strictly positive quantity. -/
def currentAssets (assets : List String) (s : SimState) : List String :=
  assets.filter (fun a => decide (0 < s.positions a))

/-- Sell step: liquidate every held asset that left the target set. -/
def sellPhase (fee slip : ℚ) (assets : List String) (day : DayData) (s : SimState) : SimState :=
  ((currentAssets assets s).filter (fun a => !decide (a ∈ day.target))).foldl
    (fun st a => sellAsset fee slip (day.priceAt a) st a) s

/-- cash_per_asset = cash / len(target_assets). -/
def cashPerAsset (cash : ℚ) (target : List String) : ℚ := cash / (target.length : ℚ)

/-- Buy step: if the target set is non-empty, split current cash evenly
and buy every target asset that was not already held before the sells
(`cur` is the pre-sell held set, as in the source). -/
def buyPhase (fee slip : ℚ) (cur : List String) (day : DayData) (s : SimState) : SimState :=
  if day.target.isEmpty then s
  else
    let cpa := cashPerAsset s.cash day.target
    (day.target.filter (fun a => !decide (a ∈ cur))).foldl
      (fun st a => buyAsset fee slip (day.priceAt a) cpa st a) s

/-- One day of the rebalancing loop: value, then sell, then buy. -/
def dayStep (fee slip : ℚ) (assets : List String) (s : SimState) (day : DayData) : SimState :=
  let s1 := valuePhase assets day s
  buyPhase fee slip (currentAssets assets s1) day (sellPhase fee slip assets day s1)

/-- Initial portfolio state: all cash, no positions, nothing recorded. -/
def initState (capital : ℚ) : SimState :=
  { cash := capital, positions := fun _ => 0, totalFees := 0, totalSlippage := 0
    tradeCount := 0, history := [] }

/-- run_simple_backtest: fold the daily rebalancing step over the dated
choice list, starting from the all-cash state. -/
def runSimpleBacktest (fee slip : ℚ) (assets : List String) (days : List DayData)
    (initialCapital : ℚ) : SimState :=
  days.foldl (dayStep fee slip assets) (initState initialCapital)

/-- Day with a single constant price for every asset. -/
def constDay (p : ℚ) (target : List String) : DayData :=
  { priceAt := fun _ => p, target := target }

/-- C2: scenario A.  With initial_capital = 10000, fee_pct = 0.001,
slippage_pct = 0.0005 and a first-day target {"X"} at market price 100,
the engine produces buy_price = 100.05, cash_per_asset = 10000,
fee = 10, bought quantity (10000 - 10) / 100.05, and cash exactly 0
after the buy step. -/
theorem c2_scenario_a :
    buyPrice (1/2000) 100 = 10005/100 ∧
    cashPerAsset 10000 ["X"] = 10000 ∧
    buyFee 10000 (1/1000) = 10 ∧
    buyQty 10000 (1/1000) (buyPrice (1/2000) 100) = (10000 - 10) / (10005/100) ∧
    (runSimpleBacktest (1/1000) (1/2000) ["X"] [constDay 100 ["X"]] 10000).cash = 0 ∧
    (runSimpleBacktest (1/1000) (1/2000) ["X"] [constDay 100 ["X"]] 10000).positions "X"
      = (10000 - 10) / (10005/100) := by
  refine ⟨?_, ?_, ?_, ?_, ?_, ?_⟩ <;>
    norm_num [runSimpleBacktest, dayStep, valuePhase, sellPhase, buyPhase, currentAssets,
      initState, portfolioValue, cashPerAsset, buyAsset, buyFee, buyQty, buyPrice,
      sellAsset, constDay]

/-- The bookkeeping invariant of the engine: non-negative cash and no
negative position quantity. -/
def EngineInv (s : SimState) : Prop := 0 ≤ s.cash ∧ ∀ a, 0 ≤ s.positions a

lemma inv_valuePhase (assets : List String) (day : DayData) (s : SimState)
    (h : EngineInv s) : EngineInv (valuePhase assets day s) := by
  obtain ⟨hc, hq⟩ := h
  exact ⟨hc, hq⟩

lemma inv_sellAsset (fee slip price : ℚ) (s : SimState) (a : String)
    (hf1 : fee < 1) (hs1 : slip < 1) (hpr : 0 ≤ price) (h : EngineInv s) :
    EngineInv (sellAsset fee slip price s a) := by
  obtain ⟨hc, hq⟩ := h
  constructor
  · simp only [sellAsset]
    have hproceeds : 0 ≤ s.positions a * (price * (1 - slip)) :=
      mul_nonneg (hq a) (mul_nonneg hpr (by linarith))
    nlinarith [hproceeds]
  · intro x
    simp only [sellAsset]
    split
    · exact le_refl 0
    · exact hq x

lemma inv_sell_foldl (fee slip : ℚ) (priceAt : String → ℚ)
    (hf1 : fee < 1) (hs1 : slip < 1) (hp : ∀ a, 0 ≤ priceAt a) :
    ∀ (l : List String) (s : SimState), EngineInv s →
      EngineInv (l.foldl (fun st a => sellAsset fee slip (priceAt a) st a) s) := by
  intro l
  induction l with
  | nil => intro s h; exact h
  | cons b l ih =>
    intro s h
    exact ih _ (inv_sellAsset fee slip (priceAt b) s b hf1 hs1 (hp b) h)

lemma inv_sellPhase (fee slip : ℚ) (assets : List String) (day : DayData) (s : SimState)
    (hf1 : fee < 1) (hs1 : slip < 1) (hp : ∀ a, 0 ≤ day.priceAt a) (h : EngineInv s) :
    EngineInv (sellPhase fee slip assets day s) :=
  inv_sell_foldl fee slip day.priceAt hf1 hs1 hp _ s h

lemma buy_foldl_cash (fee slip cpa : ℚ) (priceAt : String → ℚ) :
    ∀ (l : List String) (s : SimState),
      (l.foldl (fun st a => buyAsset fee slip (priceAt a) cpa st a) s).cash
        = s.cash - l.length * cpa := by
  intro l
  induction l with
  | nil => intro s; simp
  | cons b l ih =>
    intro s
    rw [List.foldl_cons, ih]
    simp only [buyAsset, List.length_cons]
    push_cast
    ring

lemma buy_foldl_positions (fee slip cpa : ℚ) (priceAt : String → ℚ)
    (hf1 : fee ≤ 1) (hcpa : 0 ≤ cpa) (hs0 : 0 ≤ slip) (hp : ∀ a, 0 ≤ priceAt a) :
    ∀ (l : List String) (s : SimState), (∀ a, 0 ≤ s.positions a) →
      ∀ a, 0 ≤ (l.foldl (fun st a => buyAsset fee slip (priceAt a) cpa st a) s).positions a := by
  intro l
  induction l with
  | nil => intro s h; exact h
  | cons b l ih =>
    intro s h
    refine ih _ ?_
    intro x
    simp only [buyAsset]
    split
    · have hbp : 0 ≤ buyPrice slip (priceAt b) :=
        mul_nonneg (hp b) (by linarith)
      have hnum : 0 ≤ cpa - buyFee cpa fee := by
        simp only [buyFee]
        nlinarith
      exact div_nonneg hnum hbp
    · exact h x

lemma inv_buyPhase (fee slip : ℚ) (cur : List String) (day : DayData) (s : SimState)
    (hf1 : fee < 1) (hs0 : 0 ≤ slip) (hp : ∀ a, 0 ≤ day.priceAt a) (h : EngineInv s) :
    EngineInv (buyPhase fee slip cur day s) := by
  obtain ⟨hc, hq⟩ := h
  unfold buyPhase
  split
  · exact ⟨hc, hq⟩
  · rename_i hne
    have hnil : day.target ≠ [] := by
      intro hcontra
      simp [hcontra] at hne
    have hn : 0 < (day.target.length : ℚ) := by
      exact_mod_cast List.length_pos.mpr hnil
    have hcpa : 0 ≤ cashPerAsset s.cash day.target := div_nonneg hc hn.le
    constructor
    · rw [buy_foldl_cash]
      have hkn : ((day.target.filter fun a => !decide (a ∈ cur)).length : ℚ)
          ≤ (day.target.length : ℚ) := by
        exact_mod_cast List.length_filter_le _ _
      have h1 : ((day.target.filter fun a => !decide (a ∈ cur)).length : ℚ)
            * cashPerAsset s.cash day.target
          ≤ (day.target.length : ℚ) * cashPerAsset s.cash day.target :=
        mul_le_mul_of_nonneg_right hkn hcpa
      have h2 : (day.target.length : ℚ) * cashPerAsset s.cash day.target = s.cash := by
        unfold cashPerAsset
        field_simp
      linarith
    · exact buy_foldl_positions fee slip _ day.priceAt hf1.le hcpa hs0 hp _ s hq

lemma inv_dayStep (fee slip : ℚ) (assets : List String) (day : DayData) (s : SimState)
    (hf1 : fee < 1) (hs0 : 0 ≤ slip) (hs1 : slip < 1) (hp : ∀ a, 0 ≤ day.priceAt a)
    (h : EngineInv s) : EngineInv (dayStep fee slip assets s day) := by
  unfold dayStep
  exact inv_buyPhase fee slip _ day _ hf1 hs0 hp
    (inv_sellPhase fee slip assets day _ hf1 hs1 hp
      (inv_valuePhase assets day s h))

lemma inv_run_foldl (fee slip : ℚ) (assets : List String)
    (hf1 : fee < 1) (hs0 : 0 ≤ slip) (hs1 : slip < 1) :
    ∀ (days : List DayData) (s : SimState),
      (∀ d ∈ days, ∀ a, 0 ≤ d.priceAt a) → EngineInv s →
      EngineInv (days.foldl (dayStep fee slip assets) s) := by
  intro days
  induction days with
  | nil => intro s _ h; exact h
  | cons d ds ih =>
    intro s hp h
    refine ih _ (fun d' hd' => hp d' (List.mem_cons_of_mem d hd')) ?_
    exact inv_dayStep fee slip assets d s hf1 hs0 hs1 (hp d (List.mem_cons_self d ds)) h

/-- C1 (amended): for every run with non-negative prices, non-negative
initial capital, fee_pct ∈ [0, 1) and slippage_pct ∈ [0, 1), the cash
balance is ≥ 0 and no position quantity is negative after the Value,
Sell and Buy step of every day. -/
theorem c1_phase_invariants (fee slip cap : ℚ) (assets : List String)
    (days pre post : List DayData) (day : DayData)
    (hcap : 0 ≤ cap) (hf0 : 0 ≤ fee) (hf1 : fee < 1) (hs0 : 0 ≤ slip) (hs1 : slip < 1)
    (hp : ∀ d ∈ days, ∀ a, 0 ≤ d.priceAt a) (hsplit : days = pre ++ day :: post) :
    EngineInv (valuePhase assets day (runSimpleBacktest fee slip assets pre cap)) ∧
    EngineInv (sellPhase fee slip assets day
      (valuePhase assets day (runSimpleBacktest fee slip assets pre cap))) ∧
    EngineInv (dayStep fee slip assets (runSimpleBacktest fee slip assets pre cap) day) := by
  subst hsplit
  have hpre : ∀ d ∈ pre, ∀ a, 0 ≤ d.priceAt a := by
    intro d hd
    exact hp d (List.mem_append_left _ hd)
  have hday : ∀ a, 0 ≤ day.priceAt a :=
    hp day (List.mem_append_right _ (List.mem_cons_self day post))
  have hbase : EngineInv (runSimpleBacktest fee slip assets pre cap) :=
    inv_run_foldl fee slip assets hf1 hs0 hs1 pre (initState cap) hpre
      ⟨hcap, fun _ => le_refl 0⟩
  refine ⟨inv_valuePhase assets day _ hbase, ?_, ?_⟩
  · exact inv_sellPhase fee slip assets day _ hf1 hs1 hday
      (inv_valuePhase assets day _ hbase)
  · exact inv_dayStep fee slip assets day _ hf1 hs0 hs1 hday hbase

/-- C1 counterexample: the claim's hypotheses (non-negative prices,
fee_pct < 1, slippage_pct < 1) do not exclude slippage_pct = -2, where
a buy computes a negative quantity: the engine violates the stated
no-negative-quantity invariant. -/
theorem c1_counterexample :
    (0 : ℚ) < 1 ∧ (-2 : ℚ) < 1 ∧ (0 : ℚ) ≤ 100 ∧
    (runSimpleBacktest 0 (-2) ["X"] [constDay 100 ["X"]] 10000).positions "X" < 0 := by
  refine ⟨by norm_num, by norm_num, by norm_num, ?_⟩
  norm_num [runSimpleBacktest, dayStep, valuePhase, sellPhase, buyPhase, currentAssets,
    initState, portfolioValue, cashPerAsset, buyAsset, buyFee, buyQty, buyPrice,
    sellAsset, constDay]

/-- Witness for the amended C1 invariant at a concrete two-day run. -/
theorem c1_phase_invariants_witness :
    EngineInv (valuePhase ["X"] (constDay 110 [])
      (runSimpleBacktest (1/1000) (1/2000) ["X"] [constDay 100 ["X"]] 10000)) ∧
    EngineInv (sellPhase (1/1000) (1/2000) ["X"] (constDay 110 [])
      (valuePhase ["X"] (constDay 110 [])
        (runSimpleBacktest (1/1000) (1/2000) ["X"] [constDay 100 ["X"]] 10000))) ∧
    EngineInv (dayStep (1/1000) (1/2000) ["X"]
      (runSimpleBacktest (1/1000) (1/2000) ["X"] [constDay 100 ["X"]] 10000)
      (constDay 110 [])) :=
  c1_phase_invariants (1/1000) (1/2000) 10000 ["X"]
    [constDay 100 ["X"], constDay 110 []] [constDay 100 ["X"]] [] (constDay 110 [])
    (by norm_num) (by norm_num) (by norm_num) (by norm_num) (by norm_num)
    (by
      intro d hd a
      simp only [List.mem_cons, List.mem_singleton, List.not_mem_nil, or_false] at hd
      rcases hd with rfl | rfl <;> simp [constDay])
    rfl

lemma positions_valuePhase (assets : List String) (day : DayData) (s : SimState) :
    (valuePhase assets day s).positions = s.positions := rfl

lemma currentAssets_empty_of_flat (assets : List String) (s : SimState)
    (hpos : ∀ a, s.positions a = 0) : currentAssets assets s = [] := by
  unfold currentAssets
  refine List.filter_eq_nil.mpr ?_
  intro a _
  simp [hpos a]

/-- C9 (amended): on a day whose target set is empty and on which no
positions are held entering the day, the engine leaves cash, positions
and the trade counter unchanged and records an equity point equal to
the cash balance (so consecutive such days record identical equity). -/
theorem c9_no_signal_frame (fee slip : ℚ) (assets : List String) (day : DayData)
    (s : SimState) (hpos : ∀ a, s.positions a = 0) (ht : day.target = []) :
    (dayStep fee slip assets s day).cash = s.cash ∧
    (∀ a, (dayStep fee slip assets s day).positions a = s.positions a) ∧
    (dayStep fee slip assets s day).tradeCount = s.tradeCount ∧
    (dayStep fee slip assets s day).history = s.history ++ [s.cash] := by
  have hval : portfolioValue assets day.priceAt s = s.cash := by
    unfold portfolioValue
    have hz : (assets.map fun a => s.positions a * day.priceAt a).sum = 0 := by
      refine List.sum_eq_zero ?_
      intro x hx
      obtain ⟨a, _, rfl⟩ := List.mem_map.mp hx
      simp [hpos a]
    rw [hz, add_zero]
  have hcur : currentAssets assets (valuePhase assets day s) = [] := by
    refine currentAssets_empty_of_flat assets _ ?_
    intro a
    rw [positions_valuePhase]
    exact hpos a
  have hstep : dayStep fee slip assets s day = valuePhase assets day s := by
    simp only [dayStep, sellPhase, buyPhase, hcur, ht]
    simp
  rw [hstep]
  refine ⟨rfl, fun a => rfl, rfl, ?_⟩
  unfold valuePhase
  rw [hval]

/-- C9 counterexample: a day-1 buy of "X" followed by a day-2 empty
target sells the position (a trade is recorded on the no-signal day)
and the recorded equity moves with the price, so the claim fails when
positions are held beforehand. -/
theorem c9_counterexample :
    (runSimpleBacktest (1/1000) (1/2000) ["X"] [constDay 100 ["X"]] 10000).tradeCount = 1 ∧
    (runSimpleBacktest (1/1000) (1/2000) ["X"]
      [constDay 100 ["X"], constDay 110 []] 10000).tradeCount = 2 ∧
    (runSimpleBacktest (1/1000) (1/2000) ["X"]
      [constDay 100 ["X"], constDay 110 []] 10000).history = [10000, 7326000/667] ∧
    (7326000/667 : ℚ) ≠ 10000 := by
  refine ⟨?_, ?_, ?_, by norm_num⟩ <;>
    norm_num [runSimpleBacktest, dayStep, valuePhase, sellPhase, buyPhase, currentAssets,
      initState, portfolioValue, cashPerAsset, buyAsset, buyFee, buyQty, buyPrice,
      sellAsset, constDay]

/-- Witness for the amended C9 frame property on a concrete flat state. -/
theorem c9_no_signal_frame_witness :
    (dayStep (1/1000) (1/2000) ["X"] (initState 500) (constDay 7 [])).cash
      = (initState 500).cash ∧
    (∀ a, (dayStep (1/1000) (1/2000) ["X"] (initState 500) (constDay 7 [])).positions a
      = (initState 500).positions a) ∧
    (dayStep (1/1000) (1/2000) ["X"] (initState 500) (constDay 7 [])).tradeCount
      = (initState 500).tradeCount ∧
    (dayStep (1/1000) (1/2000) ["X"] (initState 500) (constDay 7 [])).history
      = (initState 500).history ++ [(initState 500).cash] :=
  c9_no_signal_frame (1/1000) (1/2000) ["X"] (constDay 7 []) (initState 500)
    (fun _ => rfl) rfl

/-- One row of the backtest input with possibly missing prices: a price
table lookup that can fail models an absent date/asset label in
price_df.loc. -/
structure DayDataOpt where
  priceAt : String → Option ℚ
  target : List String

/-- Equity valuation with fallible lookups: any missing price of a
tracked asset makes the whole valuation fail, as the source's
price_df.loc raises on an absent label. -/
def portfolioValueOpt (assets : List String) (priceAt : String → Option ℚ)
    (s : SimState) : Option ℚ :=
  (assets.mapM (fun a => (priceAt a).map (fun p => s.positions a * p))).map
    (fun l => s.cash + l.sum)

/-- One day of the rebalancing loop with fallible price lookups. -/
def dayStepOpt (fee slip : ℚ) (assets : List String) (s : SimState)
    (day : DayDataOpt) : Option SimState := do
  let v ← portfolioValueOpt assets day.priceAt s
  let s1 : SimState := { s with history := s.history ++ [v] }
  let cur := currentAssets assets s1
  let s2 ← (cur.filter (fun a => !decide (a ∈ day.target))).foldlM
    (fun st a => (day.priceAt a).map (fun p => sellAsset fee slip p st a)) s1
  if day.target.isEmpty then pure s2
  else
    let cpa := cashPerAsset s2.cash day.target
    (day.target.filter (fun a => !decide (a ∈ cur))).foldlM
      (fun st a => (day.priceAt a).map (fun p => buyAsset fee slip p cpa st a)) s2

/-- run_simple_backtest with fallible price lookups: the run aborts
(returns none) at the first failed lookup. -/
def runSimpleBacktestOpt (fee slip : ℚ) (assets : List String) (days : List DayDataOpt)
    (initialCapital : ℚ) : Option SimState :=
  days.foldlM (dayStepOpt fee slip assets) (initState initialCapital)

/-- C8 counterexample: after buying "X" on day 1, a missing day-2 price
for the held asset aborts the whole run instead of skipping the date and
recording an equity point from the last known price. -/
theorem c8_counterexample :
    runSimpleBacktestOpt (1/1000) (1/2000) ["X"]
      [⟨fun _ => some 100, ["X"]⟩, ⟨fun _ => none, []⟩] 10000 = none := by
  rfl

/-- C8 (amended): whatever the capital, fee, slippage and day-2 target,
a missing price for a tracked asset on day 2 makes the run return no
result at all: trading is not skipped, no equity point is recorded from
a last known price, and the run does not continue. -/
theorem c8_missing_price_aborts (cap fee slip : ℚ) (t2 : List String) :
    runSimpleBacktestOpt fee slip ["X"]
      [⟨fun _ => some 100, ["X"]⟩, ⟨fun _ => none, t2⟩] cap = none := by
  simp [runSimpleBacktestOpt, dayStepOpt, portfolioValueOpt, initState, currentAssets,
    cashPerAsset, List.foldlM, List.mapM, List.mapM.loop, Option.bind]

/-- pct_change relative to a running previous value: v / prev - 1 for
each consecutive pair. -/
def pctChangeFrom (prev : ℚ) : List ℚ → List ℚ
  | [] => []
  | v :: vs => (v / prev - 1) :: pctChangeFrom v vs

/-- Series.pct_change().dropna(): one daily return per consecutive pair
of values. -/
def pctChange : List ℚ → List ℚ
  | [] => []
  | v :: vs => pctChangeFrom v vs

/-- (1 + returns).cumprod() with explicit accumulator. -/
def cumProd (acc : ℚ) : List ℚ → List ℚ
  | [] => []
  | r :: rs => (acc * (1 + r)) :: cumProd (acc * (1 + r)) rs

/-- Drawdown series against the running maximum seen so far. -/
def ddGo (m : ℚ) : List ℚ → List ℚ
  | [] => []
  | v :: vs => ((v - max m v) / max m v) :: ddGo (max m v) vs

/-- (values - values.cummax()) / values.cummax(). -/
def drawdowns : List ℚ → List ℚ
  | [] => []
  | v :: vs => ddGo v (v :: vs)

/-- Series.min() of the drawdown series (0 for an empty series). -/
def listMin : List ℚ → ℚ
  | [] => 0
  | v :: vs => vs.foldl min v

/-- Max drawdown as computed inside calculate_metrics: drawdowns of the
cumulative product of (1 + daily returns), with the zeroed-metrics guard
for curves shorter than 2 points. -/
def maxDrawdownMetrics (curve : List ℚ) : ℚ :=
  if curve.length < 2 then 0
  else listMin (drawdowns (cumProd 1 (pctChange curve)))

/-- calculate_max_drawdown: drawdowns of the raw portfolio values
against their running maximum. -/
def calculateMaxDrawdown (values : List ℚ) : ℚ :=
  listMin (drawdowns values)

lemma cumProd_pctChangeFrom (v0 : ℚ) (hv0 : v0 ≠ 0) :
    ∀ (rest : List ℚ), (∀ x ∈ rest, x ≠ 0) → ∀ (prev : ℚ), prev ≠ 0 →
      cumProd (prev / v0) (pctChangeFrom prev rest) = rest.map (fun v => v / v0) := by
  intro rest
  induction rest with
  | nil => intro _ prev _; rfl
  | cons v vs ih =>
    intro hrest prev hprev
    have hv : v ≠ 0 := hrest v (List.mem_cons_self v vs)
    have hx : prev / v0 * (1 + (v / prev - 1)) = v / v0 := by
      field_simp
      ring
    simp only [pctChangeFrom, cumProd, List.map_cons, hx]
    rw [ih (fun x hx' => hrest x (List.mem_cons_of_mem v hx')) v hv]

lemma cumProd_pctChange (v0 : ℚ) (hv0 : v0 ≠ 0) (rest : List ℚ)
    (hrest : ∀ x ∈ rest, x ≠ 0) :
    cumProd 1 (pctChange (v0 :: rest)) = rest.map (fun v => v / v0) := by
  have h1 : (1 : ℚ) = v0 / v0 := (div_self hv0).symm
  rw [pctChange, h1]
  exact cumProd_pctChangeFrom v0 hv0 rest hrest v0 hv0

lemma ddGo_div (k : ℚ) (hk : 0 < k) :
    ∀ (vs : List ℚ) (m : ℚ), 0 < m → (∀ v ∈ vs, 0 < v) →
      ddGo (m / k) (vs.map (fun v => v / k)) = ddGo m vs := by
  intro vs
  induction vs with
  | nil => intro m _ _; rfl
  | cons v vs ih =>
    intro m hm hpos
    have hv : 0 < v := hpos v (List.mem_cons_self v vs)
    have hmv : 0 < max m v := lt_max_of_lt_left hm
    have hmax : max (m / k) (v / k) = max m v / k := by
      rcases le_total m v with h | h
      · rw [max_eq_right ((div_le_div_right hk).mpr h), max_eq_right h]
      · rw [max_eq_left ((div_le_div_right hk).mpr h), max_eq_left h]
    have hhead : (v / k - max m v / k) / (max m v / k) = (v - max m v) / max m v := by
      field_simp
    simp only [List.map_cons, ddGo, hmax, hhead]
    rw [ih (max m v) hmv (fun x hx => hpos x (List.mem_cons_of_mem v hx))]

/-- C10 counterexample: on the curve [120, 100] the cumprod-based
drawdown of calculate_metrics never sees the initial peak 120, so the
two computations disagree. -/
theorem c10_counterexample :
    maxDrawdownMetrics [120, 100] = 0 ∧
    calculateMaxDrawdown [120, 100] = -1/6 ∧
    ((0 : ℚ) ≠ -1/6) := by
  refine ⟨?_, ?_, by norm_num⟩ <;>
    norm_num [maxDrawdownMetrics, calculateMaxDrawdown, drawdowns, ddGo, listMin,
      cumProd, pctChange, pctChangeFrom, max_def]

/-- C10 (amended): for every equity curve of at least 2 strictly
positive values whose first value does not exceed its second, the max
drawdown of calculate_metrics (from the cumulative product of 1 + daily
returns) equals the max drawdown of calculate_max_drawdown (from the
raw values and their running maximum). -/
theorem c10_drawdown_equiv (v0 v1 : ℚ) (rest : List ℚ)
    (h0 : 0 < v0) (h1 : 0 < v1) (hrest : ∀ v ∈ rest, 0 < v) (h01 : v0 ≤ v1) :
    maxDrawdownMetrics (v0 :: v1 :: rest) = calculateMaxDrawdown (v0 :: v1 :: rest) := by
  unfold maxDrawdownMetrics calculateMaxDrawdown
  rw [if_neg (by simp)]
  have hne : ∀ x ∈ v1 :: rest, x ≠ 0 := by
    intro x hx
    rcases List.mem_cons.mp hx with rfl | hx
    · exact h1.ne'
    · exact (hrest x hx).ne'
  have hpos : ∀ v ∈ v1 :: rest, 0 < v := by
    intro x hx
    rcases List.mem_cons.mp hx with rfl | hx
    · exact h1
    · exact hrest x hx
  rw [cumProd_pctChange v0 h0.ne' (v1 :: rest) hne]
  have hdd : ddGo (v1 / v0) ((v1 :: rest).map (fun v => v / v0)) = ddGo v1 (v1 :: rest) :=
    ddGo_div v0 h0 (v1 :: rest) v1 h1 hpos
  simp only [List.map_cons] at hdd
  simp only [List.map_cons, drawdowns, hdd]
  -- both sides now reduce to folds over 0 :: ddGo v1 rest
  simp only [ddGo, max_self, sub_self, zero_div, max_eq_right h01, listMin,
    List.foldl_cons, min_self]

/-- Witness for the amended C10 equivalence on the scenario-B curve. -/
theorem c10_drawdown_equiv_witness :
    maxDrawdownMetrics [100, 110, 105, 120] = calculateMaxDrawdown [100, 110, 105, 120] :=
  c10_drawdown_equiv 100 110 [105, 120] (by norm_num) (by norm_num)
    (by
      intro v hv
      rcases List.mem_cons.mp hv with rfl | hv
      · norm_num
      · rcases List.mem_singleton.mp hv with rfl
        norm_num)
    (by norm_num)

/-- Series.mean(): sum / length (0 for an empty series). -/
def rmean (l : List ℚ) : ℚ := l.sum / (l.length : ℚ)

/-- Squared sample variance behind Series.std() (ddof = 1): sum of
squared deviations from the mean over (n - 1). -/
def svar (l : List ℚ) : ℚ :=
  ((l.map (fun x => (x - rmean l) ^ 2)).sum) / ((l.length : ℚ) - 1)

/-- Sharpe ratio of calculate_metrics: sqrt(252) * mean / std of the
raw daily returns, 0 unless the curve has at least 2 points and the
returns have positive standard deviation. -/
noncomputable def sharpeRatioMetrics (curve : List ℚ) : ℝ :=
  if curve.length < 2 then 0
  else
    if 0 < svar (pctChange curve) then
      Real.sqrt 252 * ((rmean (pctChange curve) : ℚ) : ℝ)
        / Real.sqrt ((svar (pctChange curve) : ℚ) : ℝ)
    else 0

/-- calculate_sharpe_ratio: annualized mean of excess returns over std
of excess returns, 0 when there are no returns or the raw returns have
zero standard deviation. -/
noncomputable def calculateSharpeRatio (riskFreeRate : ℚ) (values : List ℚ) : ℝ :=
  if pctChange values = [] ∨ svar (pctChange values) = 0 then 0
  else
    (((rmean ((pctChange values).map (fun r => r - riskFreeRate / 252)) : ℚ) : ℝ)
        / Real.sqrt ((svar ((pctChange values).map (fun r => r - riskFreeRate / 252)) : ℚ) : ℝ))
      * Real.sqrt 252

lemma sum_map_sub_const (c : ℚ) :
    ∀ l : List ℚ, (l.map (fun x => x - c)).sum = l.sum - l.length * c := by
  intro l
  induction l with
  | nil => simp
  | cons a l ih =>
    simp only [List.map_cons, List.sum_cons, ih, List.length_cons]
    push_cast
    ring

lemma rmean_map_sub (c : ℚ) (l : List ℚ) (hl : l ≠ []) :
    rmean (l.map (fun x => x - c)) = rmean l - c := by
  unfold rmean
  rw [List.length_map, sum_map_sub_const]
  have hn : ((l.length : ℚ)) ≠ 0 := by
    have := List.length_pos.mpr hl
    exact_mod_cast this.ne'
  field_simp

lemma svar_map_sub_const (c : ℚ) (l : List ℚ) (hl : l ≠ []) :
    svar (l.map (fun x => x - c)) = svar l := by
  unfold svar
  rw [List.length_map, rmean_map_sub c l hl, List.map_map]
  have hfun : ((fun x : ℚ => (x - (rmean l - c)) ^ 2) ∘ fun x : ℚ => x - c)
      = fun x : ℚ => (x - rmean l) ^ 2 := by
    funext x
    simp only [Function.comp]
    ring
  rw [hfun]

lemma svar_nonneg (l : List ℚ) : 0 ≤ svar l := by
  unfold svar
  rcases l with _ | ⟨a, l⟩
  · simp
  rcases l with _ | ⟨b, l⟩
  · norm_num [rmean]
  · apply div_nonneg
    · apply List.sum_nonneg
      intro x hx
      obtain ⟨y, _, rfl⟩ := List.mem_map.mp hx
      positivity
    · have h2 : (2 : ℚ) ≤ ((a :: b :: l).length : ℚ) := by
        have : 2 ≤ (a :: b :: l).length := by simp
        exact_mod_cast this
      linarith

lemma pctChangeFrom_length (rest : List ℚ) :
    ∀ prev : ℚ, (pctChangeFrom prev rest).length = rest.length := by
  induction rest with
  | nil => intro prev; rfl
  | cons v vs ih =>
    intro prev
    simp [pctChangeFrom, ih]

/-- C7 counterexample: on the curve [100, 110, 105, 120] the Sharpe
ratio computed by calculate_metrics differs from the claimed
excess-return formula with the default risk_free_rate = 0.02 (the
formula implemented by calculate_sharpe_ratio), because
calculate_metrics never subtracts the risk-free rate. -/
theorem c7_counterexample :
    sharpeRatioMetrics [100, 110, 105, 120]
      ≠ calculateSharpeRatio (1/50) [100, 110, 105, 120] := by
  have hr : pctChange [100, 110, 105, 120] = [1/10, -1/22, 1/7] := by
    norm_num [pctChange, pctChangeFrom]
  have hm : rmean [1/10, -1/22, 1/7] = 76/1155 := by
    norm_num [rmean]
  have hv : svar [1/10, -1/22, 1/7] = 17329/1778700 := by
    norm_num [svar, rmean]
  have hm' : rmean (([1/10, -1/22, 1/7] : List ℚ).map (fun r => r - (1/50) / 252))
      = 76/1155 - 1/12600 := by
    rw [rmean_map_sub _ _ (by simp), hm]
    norm_num
  have hv' : svar (([1/10, -1/22, 1/7] : List ℚ).map (fun r => r - (1/50) / 252))
      = 17329/1778700 := by
    rw [svar_map_sub_const _ _ (by simp), hv]
  unfold sharpeRatioMetrics calculateSharpeRatio
  rw [hr, if_neg (by norm_num), if_pos (by rw [hv]; norm_num),
    if_neg (by push_neg; exact ⟨by simp, by rw [hv]; norm_num⟩), hm, hm', hv, hv']
  have hvpos : (0 : ℝ) < ((17329/1778700 : ℚ) : ℝ) := by
    norm_num
  have hT : 0 < Real.sqrt ((17329/1778700 : ℚ) : ℝ) := Real.sqrt_pos.mpr hvpos
  have hS : 0 < Real.sqrt 252 := Real.sqrt_pos.mpr (by norm_num)
  intro heq
  rw [div_mul_eq_mul_div] at heq
  rw [div_eq_div_iff hT.ne' hT.ne'] at heq
  have h2 : Real.sqrt 252 * ((76/1155 : ℚ) : ℝ)
      = ((76/1155 - 1/12600 : ℚ) : ℝ) * Real.sqrt 252 :=
    mul_right_cancel₀ hT.ne' heq
  rw [mul_comm] at h2
  have h3 := mul_right_cancel₀ hS.ne' h2
  have h4 : (76/1155 : ℚ) = 76/1155 - 1/12600 := by
    exact_mod_cast h3
  norm_num at h4

/-- C7 (amended): for every equity curve of at least 3 strictly
positive points, calculate_metrics computes the Sharpe ratio as the
excess-return formula with risk_free_rate = 0 rather than the default
0.02: it coincides with calculate_sharpe_ratio at risk-free rate 0, and
is 0 when the standard deviation of the daily returns is 0. -/
theorem c7_sharpe_equiv (curve : List ℚ) (h3 : 3 ≤ curve.length)
    (hpos : ∀ v ∈ curve, 0 < v) :
    sharpeRatioMetrics curve = calculateSharpeRatio 0 curve := by
  have hlen2 : ¬(curve.length < 2) := by omega
  have hrne : pctChange curve ≠ [] := by
    rcases curve with _ | ⟨a, rest⟩
    · simp at h3
    · have hlen : (pctChange (a :: rest)).length = rest.length := by
        simp [pctChange, pctChangeFrom_length]
      have h3' : 3 ≤ rest.length + 1 := by simpa using h3
      intro hcontra
      rw [hcontra] at hlen
      simp at hlen
      omega
  unfold sharpeRatioMetrics calculateSharpeRatio
  rw [if_neg hlen2]
  have hmap : (pctChange curve).map (fun r => r - (0 : ℚ) / 252) = pctChange curve := by
    simp
  rw [hmap]
  by_cases hv : 0 < svar (pctChange curve)
  · rw [if_pos hv, if_neg (by push_neg; exact ⟨hrne, hv.ne'⟩)]
    ring
  · have hv0 : svar (pctChange curve) = 0 := le_antisymm (not_lt.mp hv) (svar_nonneg _)
    rw [if_neg hv, if_pos (Or.inr hv0)]

/-- Witness for the amended C7 equivalence on the scenario-B curve. -/
theorem c7_sharpe_equiv_witness :
    sharpeRatioMetrics [100, 110, 105, 120] = calculateSharpeRatio 0 [100, 110, 105, 120] :=
  c7_sharpe_equiv [100, 110, 105, 120] (by simp)
    (by
      intro v hv
      rcases List.mem_cons.mp hv with rfl | hv
      · norm_num
      · rcases List.mem_cons.mp hv with rfl | hv
        · norm_num
        · rcases List.mem_cons.mp hv with rfl | hv
          · norm_num
          · rcases List.mem_singleton.mp hv with rfl
            norm_num)

/-- Modelled from the spec: the cardinality constraint of the Solver
interface (the source delegates the solve step to an external quantum
library, so the Solver contract described in the specification is
modelled here). -/
structure Constraint where
  minAssets : ℕ
  maxAssets : ℕ

/-- Modelled from the spec: a solver result — chosen asset identifiers
with the attained objective value. -/
structure SelectionResult where
  chosenAssets : List String
  objectiveValue : ℚ

/-- Objective linear·x - x'·quadratic·x of a selection: the sum of the
linear coefficients of the chosen assets minus the quadratic form over
the chosen pairs. -/
def objValue (quad : String → String → ℚ) (sel : List (String × ℚ)) : ℚ :=
  (sel.map Prod.snd).sum
    - (sel.map (fun p => (sel.map (fun q => quad p.1 q.1)).sum)).sum

/-- Cardinality feasibility: min_assets ≤ n ≤ max_assets. -/
def feasCard (cons : Constraint) (n : ℕ) : Bool :=
  decide (cons.minAssets ≤ n) && decide (n ≤ cons.maxAssets)

/-- Lexicographic strict order on chosen-name lists, the exact solver's
tie-break. -/
def lexLt : List String → List String → Bool
  | [], [] => false
  | [], _ :: _ => true
  | _ :: _, [] => false
  | a :: as, b :: bs => if a < b then true else if a = b then lexLt as bs else false

/-- Modelled from the spec: choice between the incumbent and a candidate
selection — a strictly larger objective wins, ties go to the
lexicographically smaller chosen set. -/
def betterSel (quad : String → String → ℚ) (best cand : List (String × ℚ)) :
    List (String × ℚ) :=
  if objValue quad best < objValue quad cand then cand
  else if objValue quad cand = objValue quad best
      ∧ lexLt (cand.map Prod.fst) (best.map Prod.fst) then cand
  else best

/-- Modelled from the spec: the feasible subsets of the candidate list
under the cardinality constraint. -/
def feasibleSubsets (cands : List (String × ℚ)) (cons : Constraint) :
    List (List (String × ℚ)) :=
  cands.sublists.filter (fun S => feasCard cons S.length)

/-- Modelled from the spec: ExactSolver.solve — enumerate all feasible
binary vectors and return the optimum under the lexicographic
tie-break; an infeasible constraint yields the empty selection, never
an error. -/
def exactSolve (cands : List (String × ℚ)) (quad : String → String → ℚ)
    (cons : Constraint) : SelectionResult :=
  match feasibleSubsets cands cons with
  | [] => { chosenAssets := [], objectiveValue := 0 }
  | S :: rest =>
    let best := rest.foldl (betterSel quad) S
    { chosenAssets := best.map Prod.fst, objectiveValue := objValue quad best }

/-- Linear congruential step used for the seeded sampling of the
approximate solver. -/
def lcg (seed : ℕ) : ℕ := (1103515245 * seed + 12345) % 2147483648

/-- Seed-derived pseudo-random bit for candidate index i. -/
def lcgBit (seed i : ℕ) : Bool := lcg^[i + 1] seed % 2 == 1

/-- Insertion into a list kept sorted by descending objective
contribution. -/
def insertDesc (x : String × ℚ) : List (String × ℚ) → List (String × ℚ)
  | [] => [x]
  | y :: ys => if y.2 ≤ x.2 then x :: y :: ys else y :: insertDesc x ys

/-- Sort by descending objective contribution. -/
def sortDesc : List (String × ℚ) → List (String × ℚ)
  | [] => []
  | x :: xs => insertDesc x (sortDesc xs)

/-- Modelled from the spec: the seeded stochastic sample of
ApproximateSolver.solve, rounded to a binary selection. -/
def approxRaw (cands : List (String × ℚ)) (seed : ℕ) : List (String × ℚ) :=
  (cands.enum.filter (fun p => lcgBit seed p.1)).map Prod.snd

/-- Projection of the rounded sample to the nearest feasible
cardinality: too many picks keep the max_assets highest contributions,
too few take the min_assets highest contributions. -/
def approxSel (cands : List (String × ℚ)) (cons : Constraint) (seed : ℕ) :
    List (String × ℚ) :=
  if cons.maxAssets < (approxRaw cands seed).length then
    (sortDesc (approxRaw cands seed)).take cons.maxAssets
  else if (approxRaw cands seed).length < cons.minAssets then
    (sortDesc cands).take cons.minAssets
  else approxRaw cands seed

/-- Modelled from the spec: ApproximateSolver.solve — a seeded
stochastic sample rounded to a binary vector and projected to the
nearest feasible cardinality; an infeasible constraint yields the empty
selection, never an error. -/
def approxSolve (cands : List (String × ℚ)) (quad : String → String → ℚ)
    (cons : Constraint) (seed : ℕ) : SelectionResult :=
  if cons.maxAssets < cons.minAssets ∨ cands.length < cons.minAssets then
    { chosenAssets := [], objectiveValue := 0 }
  else
    { chosenAssets := (approxSel cands cons seed).map Prod.fst
      objectiveValue := objValue quad (approxSel cands cons seed) }

lemma betterSel_eq_or (quad : String → String → ℚ) (b c : List (String × ℚ)) :
    betterSel quad b c = b ∨ betterSel quad b c = c := by
  unfold betterSel
  split
  · exact Or.inr rfl
  · split
    · exact Or.inr rfl
    · exact Or.inl rfl

lemma foldl_betterSel_mem (quad : String → String → ℚ) :
    ∀ (rest : List (List (String × ℚ))) (S : List (String × ℚ)),
      rest.foldl (betterSel quad) S ∈ S :: rest := by
  intro rest
  induction rest with
  | nil => intro S; simp
  | cons r rs ih =>
    intro S
    rw [List.foldl_cons]
    rcases List.mem_cons.mp (ih (betterSel quad S r)) with h1 | h1
    · rw [h1]
      rcases betterSel_eq_or quad S r with h2 | h2 <;> rw [h2] <;> simp
    · exact List.mem_cons_of_mem _ (List.mem_cons_of_mem _ h1)

lemma betterSel_le_left (quad : String → String → ℚ) (b c : List (String × ℚ)) :
    objValue quad b ≤ objValue quad (betterSel quad b c) := by
  unfold betterSel
  split
  · rename_i h
    exact le_of_lt h
  · split
    · rename_i h
      exact le_of_eq h.1.symm
    · exact le_refl _

lemma betterSel_le_right (quad : String → String → ℚ) (b c : List (String × ℚ)) :
    objValue quad c ≤ objValue quad (betterSel quad b c) := by
  unfold betterSel
  split
  · exact le_refl _
  · split
    · exact le_refl _
    · rename_i h1 h2
      exact not_lt.mp h1

lemma foldl_betterSel_opt (quad : String → String → ℚ) :
    ∀ (rest : List (List (String × ℚ))) (S x : List (String × ℚ)), x ∈ S :: rest →
      objValue quad x ≤ objValue quad (rest.foldl (betterSel quad) S) := by
  intro rest
  induction rest with
  | nil =>
    intro S x hx
    rw [List.mem_singleton] at hx
    subst hx
    simp
  | cons r rs ih =>
    intro S x hx
    rw [List.foldl_cons]
    rcases List.mem_cons.mp hx with rfl | hx
    · exact le_trans (betterSel_le_left quad x r) (ih _ _ (List.mem_cons_self _ _))
    · rcases List.mem_cons.mp hx with rfl | hx
      · exact le_trans (betterSel_le_right quad S x) (ih _ _ (List.mem_cons_self _ _))
      · exact ih _ _ (List.mem_cons_of_mem _ hx)

lemma length_insertDesc (x : String × ℚ) :
    ∀ l : List (String × ℚ), (insertDesc x l).length = l.length + 1 := by
  intro l
  induction l with
  | nil => rfl
  | cons y ys ih =>
    unfold insertDesc
    split
    · simp
    · simp [ih]

lemma length_sortDesc : ∀ l : List (String × ℚ), (sortDesc l).length = l.length := by
  intro l
  induction l with
  | nil => rfl
  | cons x xs ih => simp [sortDesc, length_insertDesc, ih]

/-- C3: for every solver input, the exact and the approximate solver
each return a selection that is either empty or whose number of chosen
assets lies between min_assets and max_assets inclusive — the
cardinality constraint is never violated. -/
theorem c3_cardinality (cands : List (String × ℚ)) (quad : String → String → ℚ)
    (cons : Constraint) (seed : ℕ) :
    ((exactSolve cands quad cons).chosenAssets = []
      ∨ (cons.minAssets ≤ (exactSolve cands quad cons).chosenAssets.length
        ∧ (exactSolve cands quad cons).chosenAssets.length ≤ cons.maxAssets)) ∧
    ((approxSolve cands quad cons seed).chosenAssets = []
      ∨ (cons.minAssets ≤ (approxSolve cands quad cons seed).chosenAssets.length
        ∧ (approxSolve cands quad cons seed).chosenAssets.length ≤ cons.maxAssets)) := by
  constructor
  · unfold exactSolve
    split
    · exact Or.inl rfl
    · rename_i S rest heq
      right
      have hmem : rest.foldl (betterSel quad) S ∈ feasibleSubsets cands cons := by
        rw [heq]
        exact foldl_betterSel_mem quad rest S
      have hfeas := (List.mem_filter.mp hmem).2
      simp only [feasCard, Bool.and_eq_true, decide_eq_true_eq] at hfeas
      simpa [List.length_map] using hfeas
  · unfold approxSolve
    split
    · exact Or.inl rfl
    · rename_i hguard
      push_neg at hguard
      obtain ⟨hminmax, hlen⟩ := hguard
      right
      unfold approxSel
      split
      · rename_i h1
        simp only [List.length_map, List.length_take, length_sortDesc] at h1 ⊢
        omega
      · split
        · rename_i h1 h2
          simp only [List.length_map, List.length_take, length_sortDesc] at h1 h2 ⊢
          omega
        · rename_i h1 h2
          simp only [List.length_map] at h1 h2 ⊢
          omega

/-- Feasible set of the quadratic program built by
optimize_portfolio_qaoa / optimize_portfolio_classical in
src/optimizer.py: a binary selection over ALL assets subject to
1 ≤ sum x_i ≤ 2 (the constraints min_one_asset and max_two_assets
range over every asset, not only the positive-score ones). -/
def qpFeasible (assets : List String) (S : List String) : Prop :=
  (∀ a ∈ S, a ∈ assets) ∧ S.Nodup ∧ 1 ≤ S.length ∧ S.length ≤ 2

/-- Objective of the source's quadratic program: only assets with
positive predicted score contribute (linear_objective keeps only
preds[asset] > 0), yet every asset is a binary variable. -/
def qpObjective (preds : String → ℚ) (S : List String) : ℚ :=
  ((S.filter (fun a => decide (0 < preds a))).map preds).sum

/-- The all-negative score mapping of the C4 failing input:
{A: -1, B: -2}. -/
def predsAllNeg : String → ℚ :=
  fun a => if a = "A" then -1 else if a = "B" then -2 else 0

/-- C4: with scores {A: -1, B: -2} the constraints of the quadratic
program force a non-empty selection although no asset has positive
score, so every feasible solver output contains an asset with score
≤ 0 (all contribute nothing to the objective) — the long-only
invariant is violated by construction. -/
theorem c4_long_only_violated (S : List String) (hS : qpFeasible ["A", "B"] S) :
    S ≠ [] ∧ (∀ a ∈ S, predsAllNeg a ≤ 0) ∧ qpObjective predsAllNeg S = 0 := by
  obtain ⟨hsub, hnodup, h1, h2⟩ := hS
  have hneg : ∀ a ∈ S, predsAllNeg a ≤ 0 := by
    intro a ha
    have := hsub a ha
    rcases List.mem_cons.mp this with rfl | hb
    · norm_num [predsAllNeg]
    · rcases List.mem_singleton.mp hb with rfl
      unfold predsAllNeg
      rw [if_neg (by decide)]
      norm_num
  refine ⟨?_, hneg, ?_⟩
  · intro hcontra
    rw [hcontra] at h1
    simp at h1
  · unfold qpObjective
    have hfilter : S.filter (fun a => decide (0 < predsAllNeg a)) = [] := by
      refine List.filter_eq_nil.mpr ?_
      intro a ha
      have := hneg a ha
      simp only [decide_eq_true_eq]
      intro hpos
      linarith
    rw [hfilter]
    rfl

/-- Witness for C4 at the concrete feasible selection ["A"]. -/
theorem c4_long_only_violated_witness :
    ["A"] ≠ ([] : List String) ∧ (∀ a ∈ ["A"], predsAllNeg a ≤ 0) ∧
      qpObjective predsAllNeg ["A"] = 0 :=
  c4_long_only_violated ["A"]
    ⟨by
      intro a ha
      rcases List.mem_singleton.mp ha with rfl
      simp,
     by simp, by simp, by simp⟩

/-- C5: with min_assets = 3 and only 2 positive-score candidates, both
solvers return the empty SelectionResult as a value — no error is
raised (the solvers are total functions). -/
theorem c5_infeasible_empty :
    exactSolve [("A", 1/2), ("B", 3/10)] (fun _ _ => 0) ⟨3, 5⟩
      = { chosenAssets := [], objectiveValue := 0 } ∧
    approxSolve [("A", 1/2), ("B", 3/10)] (fun _ _ => 0) ⟨3, 5⟩ 7
      = { chosenAssets := [], objectiveValue := 0 } := by
  constructor
  · rfl
  · rfl

/-- C6: both solvers are deterministic — identical inputs (and, for the
approximate solver, identical seed) give identical SelectionResults —
and the exact solver's unique output attains the maximal objective over
every feasible selection. -/
theorem c6_determinism (cands cands' : List (String × ℚ)) (quad : String → String → ℚ)
    (cons : Constraint) (seed : ℕ) (S : List (String × ℚ))
    (hEq : cands = cands') (hS : S ∈ feasibleSubsets cands cons) :
    exactSolve cands quad cons = exactSolve cands' quad cons ∧
    approxSolve cands quad cons seed = approxSolve cands' quad cons seed ∧
    objValue quad S ≤ (exactSolve cands quad cons).objectiveValue := by
  subst hEq
  refine ⟨rfl, rfl, ?_⟩
  unfold exactSolve
  split
  · rename_i heq
    rw [heq] at hS
    exact absurd hS (List.not_mem_nil S)
  · rename_i S0 rest heq
    rw [heq] at hS
    exact foldl_betterSel_opt quad rest S0 S hS

/-- Witness for C6 at a concrete one-candidate input. -/
theorem c6_determinism_witness :
    exactSolve [("A", 1)] (fun _ _ => 0) ⟨1, 2⟩ = exactSolve [("A", 1)] (fun _ _ => 0) ⟨1, 2⟩ ∧
    approxSolve [("A", 1)] (fun _ _ => 0) ⟨1, 2⟩ 0
      = approxSolve [("A", 1)] (fun _ _ => 0) ⟨1, 2⟩ 0 ∧
    objValue (fun _ _ => 0) [("A", 1)]
      ≤ (exactSolve [("A", 1)] (fun _ _ => 0) ⟨1, 2⟩).objectiveValue :=
  c6_determinism [("A", 1)] [("A", 1)] (fun _ _ => 0) ⟨1, 2⟩ 0 [("A", 1)] rfl
    (by simp [feasibleSubsets, feasCard, List.sublists])
